import Mathlib

/-!
Verification development for the update orchestrator in
src/update_fdroid.py (fdroid-github-tracker).

The Python source is embedded shallowly:

* The shared configuration document (config.yml) is a character list
  (a line-oriented text file).  The Python code manipulates it through
  readlines / write, which we mirror with an executable keepends line
  splitter.
* run_fdroid_update (lines 291-356) is a pure document transformer plus
  flags stating whether the external tool was invoked and whether the
  invocation raised.  The external subprocess results (fdroid update /
  fdroid signindex succeeding or raising) are oracle booleans.
* main's per-cycle body (lines 368-405) is a pure function from the
  cycle's oracle inputs to which pipeline steps ran and the final
  document.
* fetch_apks (lines 32-112) is folded over per-repository oracle
  outcomes (GitHub API result, asset list, download success) with the
  repo-directory file set, the persisted repo→package map and the APK
  inspector as explicit state/oracles.
* apply_fastlane_metadata (lines 181-268) is a pure transformer on a
  state holding the staged bundles, the repo→package map, the per-package
  metadata records and the published assets.
* The repo_package_map save (lines 105-110) is modelled as the sequence
  of contents a concurrent reader of the target file can observe.
-/

namespace FdroidUpdate

/-! ## Text documents as character lists -/

/-- A line-oriented text document, as its sequence of characters. -/
abbrev Doc := List Char

/-- Keepends line splitting, as Python's readlines does on newline-only
text: every line ends with a newline character except possibly the last. -/
def splitLines : Doc → List Doc
  | [] => []
  | c :: cs =>
    if c = '\n' then ['\n'] :: splitLines cs
    else
      match splitLines cs with
      | [] => [[c]]
      | l :: ls => (c :: l) :: ls

/-- Substring test on character lists; Python's `in` operator on str. -/
def containsSub (pat : Doc) : Doc → Bool
  | [] => pat.isEmpty
  | c :: cs => pat.isPrefixOf (c :: cs) || containsSub pat cs

/-- Python str.strip() whitespace set (ASCII portion). -/
def isPySpace (c : Char) : Bool :=
  c = ' ' || c = '\t' || c = '\n' || c = '\r' || c = '\x0b' || c = '\x0c'

/-- Python str.strip(): drop whitespace from both ends. -/
def pyStrip (l : Doc) : Doc :=
  ((l.dropWhile isPySpace).reverse.dropWhile isPySpace).reverse

/-- Python str.endswith on Strings (via their character lists, so that it
evaluates inside the kernel). -/
def pyEndsWith (suffixStr s : String) : Bool :=
  suffixStr.data.isSuffixOf s.data

/-- Python s.split(sep)[0] for the single-character separator '/': the
characters strictly before the first slash (the whole string when there
is none). -/
def pySplitSlashHead (s : String) : String :=
  ⟨s.data.takeWhile fun c => ¬ c = '/'⟩

/-! ## ConfigPatcher / IndexBuilder: run_fdroid_update (lines 291-356) -/

/-- The in-document marker delimiting the ephemeral credential suffix
(the string tested with `in` at lines 310, 314 and 354). -/
def markerD : Doc := "--- TEMPORARY KEYSTORE CONFIG".data

/-- Line test of line 310 / 314 / 354: marker occurs in the line. -/
def lineHasMarker (l : Doc) : Bool := containsSub markerD l

/-- Document-level test of line 310: some line contains the marker. -/
def hasMarker (d : Doc) : Bool := (splitLines d).any lineHasMarker

/-- The truncation loop of lines 312-316 (also 352-356): write back every
line strictly before the first line containing the marker. -/
def truncateAtMarker (d : Doc) : Doc :=
  ((splitLines d).takeWhile fun l => !lineHasMarker l).flatten

/-- Entry cleanup, lines 308-316: the file is rewritten (truncated at the
marker) only when some line contains the marker. -/
def entryStep (d : Doc) : Doc :=
  if hasMarker d then truncateAtMarker d else d

/-- Keystore detection of line 323:
any(line.strip().startswith('keystore:') for line in config_lines). -/
def hasKeystore (d : Doc) : Bool :=
  (splitLines d).any fun l => "keystore:".data.isPrefixOf (pyStrip l)

/-- The three credential values read from the environment at lines 330-332. -/
structure Env where
  keyAlias : Doc
  keystorePass : Doc
  keyPass : Doc
deriving DecidableEq

/-- The block appended at lines 327-335: the triple-quoted f-string starts
with a newline, then the marker line, then the four credential fields. -/
def keystoreConfig (e : Env) : Doc :=
  "\n# --- TEMPORARY KEYSTORE CONFIG (AUTO-GENERATED) ---\nkeystore: /app/config/keystore.jks\nrepo_keyalias: ".data
    ++ e.keyAlias
    ++ "\nkeystorepass: ".data ++ e.keystorePass
    ++ "\nkeypass: ".data ++ e.keyPass ++ "\n".data

/-- Result of one run_fdroid_update invocation: the final document, whether
the invocation raised (propagating to the caller after the finally block),
and which external tool invocations were attempted. -/
structure UpdateResult where
  doc : Doc
  raised : Bool
  invokedBuild : Bool
  invokedSign : Bool
deriving DecidableEq

/-- run_fdroid_update (lines 291-356).  `cfgExists` states whether
config.yml exists after the copy attempt of lines 296-299 (lines 301-303
log an error and return when it does not).  `updateOk` / `signOk` are the
oracle outcomes of the two subprocess.run(..., check=True) calls: a false
value means the call raises CalledProcessError.  The finally block (lines
347-356) re-truncates at the marker whenever the block was appended,
regardless of whether the build raised. -/
def run_fdroid_update (e : Env) (cfgExists sign updateOk signOk : Bool) (d : Doc) :
    UpdateResult :=
  if cfgExists then
    let d1 := entryStep d
    let added := !hasKeystore d1
    let d2 := if added then d1 ++ keystoreConfig e else d1
    let raised := if updateOk then (if sign then !signOk else false) else true
    let d3 := if added then truncateAtMarker d2 else d2
    { doc := d3, raised := raised, invokedBuild := true, invokedSign := updateOk && sign }
  else
    { doc := d, raised := false, invokedBuild := false, invokedSign := false }

/-! ## Scheduler: one iteration of main's while-loop (lines 368-405) -/

/-- Oracle inputs of one cycle: whether fetch_apks reported a download,
whether config.yml is present for the build passes, and the subprocess
outcomes of pass 1 (unsigned) and pass 2 (signed). -/
structure CycleInput where
  downloaded : Bool
  cfgExists : Bool
  updateOk1 : Bool
  updateOk2 : Bool
  signOk2 : Bool
deriving DecidableEq

/-- Observable outcome of one cycle body: final config document, which
steps ran, whether the catch-all boundary (lines 400-402) caught an
exception, and whether control reached the sleep at lines 404-405 (it
always does: the boundary swallows every exception, so the loop
continues with the next cycle). -/
structure CycleResult where
  doc : Doc
  harvested : Bool
  reconciled : Bool
  finalInvoked : Bool
  errorLogged : Bool
  sleeps : Bool
deriving DecidableEq

/-- One iteration of main's loop body (lines 368-405): fetch, then if a
download happened run fetch_fastlane_metadata, copy_resources,
run_fdroid_update(sign=False), apply_fastlane_metadata,
run_fdroid_update(sign=True); any exception is caught by the boundary and
the loop proceeds to sleep. -/
def runCycle (e : Env) (ci : CycleInput) (d : Doc) : CycleResult :=
  if ci.downloaded then
    let r1 := run_fdroid_update e ci.cfgExists false ci.updateOk1 true d
    if r1.raised then
      { doc := r1.doc, harvested := true, reconciled := false, finalInvoked := false,
        errorLogged := true, sleeps := true }
    else
      let r2 := run_fdroid_update e ci.cfgExists true ci.updateOk2 ci.signOk2 r1.doc
      { doc := r2.doc, harvested := true, reconciled := true, finalInvoked := true,
        errorLogged := r2.raised, sleeps := true }
  else
    { doc := d, harvested := false, reconciled := false, finalInvoked := false,
      errorLogged := false, sleeps := true }

/-! ## ArtifactFetcher: fetch_apks (lines 32-112) -/

/-- One release asset from the GitHub latest-release response: its file
name and whether downloading it would succeed (urlretrieve raising is
modelled by a false `downloadOk`). -/
structure Asset where
  name : String
  downloadOk : Bool
deriving DecidableEq

/-- Oracle outcome for one configured repository: its owner/project slug,
whether the latest-release API call succeeds, and the asset list. -/
structure RepoOutcome where
  slug : String
  fetchOk : Bool
  assets : List Asset
deriving DecidableEq

/-- The world one fetch_apks run sees: the configured repositories (from
repos.json) with their oracle outcomes, the files already present in
/data/repo, the state of /data/repo_package_map.json (none = absent,
some none = present but unparseable, some (some m) = parses to m), and
the APK inspector (filename to package id; a missing entry models
androguard raising, which is caught and logged at lines 96-97). -/
structure FetchWorld where
  outcomes : List RepoOutcome
  existing0 : List String
  mapFile : Option (Option (List (String × String)))
  inspector : List (String × String)
deriving DecidableEq

/-- Mutable state threaded through fetch_apks: the repo-directory file
set, the repo→package map, and the `downloaded` flag. -/
structure FetchSt where
  files : List String
  map : List (String × String)
  downloaded : Bool
deriving DecidableEq

/-- Lines 49-55: load the persisted map, treating an absent or
unparseable file as the empty map. -/
def loadMap : Option (Option (List (String × String))) → List (String × String)
  | some (some m) => m
  | _ => []

/-- Lines 73-97, one asset: skip non-.apk names; skip the download when
the file already exists; otherwise download (urlretrieve failure raises,
returning none, which aborts the enclosing repository's processing); then,
when the repository is not yet mapped and the target file exists, inspect
the APK and record the mapping (inspection failure is swallowed). -/
def processAsset (insp : List (String × String)) (slug : String) (st : FetchSt)
    (a : Asset) : Option FetchSt :=
  if !(pyEndsWith ".apk" a.name) then some st
  else
    let st1? : Option FetchSt :=
      if st.files.contains a.name then some st
      else if a.downloadOk then
        some { st with files := st.files ++ [a.name], downloaded := true }
      else none
    match st1? with
    | none => none
    | some st1 =>
      if (st1.map.lookup slug).isNone && st1.files.contains a.name then
        match insp.lookup a.name with
        | some p => some { st1 with map := st1.map ++ [(slug, p)] }
        | none => some st1
      else some st1

/-- The asset loop of lines 73-97; a raising download aborts the rest of
this repository's assets (the exception is caught at lines 99-103),
keeping all state changes made so far. -/
def processAssets (insp : List (String × String)) (slug : String) :
    FetchSt → List Asset → FetchSt
  | st, [] => st
  | st, a :: rest =>
    match processAsset insp slug st a with
    | none => st
    | some st1 => processAssets insp slug st1 rest

/-- Lines 57-103, one repository: a failing API call is caught and logged,
leaving the state untouched; otherwise the asset loop runs. -/
def processRepo (insp : List (String × String)) (st : FetchSt) (o : RepoOutcome) :
    FetchSt :=
  if o.fetchOk then processAssets insp o.slug st o.assets else st

/-- The state fetch_apks starts from: initial files, the loaded map, and
downloaded = False (line 45). -/
def initFetchSt (w : FetchWorld) : FetchSt :=
  { files := w.existing0, map := loadMap w.mapFile, downloaded := false }

/-- fetch_apks (lines 32-112): fold the per-repository step over the
configured repositories; the final state's map is what line 107 persists,
and the function returns (downloaded, repos). -/
def fetch_apks (w : FetchWorld) : FetchSt :=
  w.outcomes.foldl (processRepo w.inspector) (initFetchSt w)

/-- The repositories fetch_fastlane_metadata is invoked over, per main's
dispatch at lines 371-377: the full configured list whenever fetch_apks
reported any download, and none otherwise (fetch_fastlane_metadata at
lines 114-121 then iterates over every element it is given). -/
def harvestAttempts (w : FetchWorld) : List String :=
  if (fetch_apks w).downloaded then w.outcomes.map RepoOutcome.slug else []

/-- The fetch state after the first `i` configured repositories. -/
def fetchStateThrough (w : FetchWorld) (i : Nat) : FetchSt :=
  (w.outcomes.take i).foldl (processRepo w.inspector) (initFetchSt w)

/-- Whether repository number `i` downloads at least one newly-seen
artifact this cycle: run its step from the state it actually sees, with
the downloaded flag cleared, and observe the flag. -/
def repoActivity (w : FetchWorld) (i : Nat) : Bool :=
  match w.outcomes[i]? with
  | none => false
  | some o =>
    (processRepo w.inspector { fetchStateThrough w i with downloaded := false } o).downloaded

/-! ## MetadataReconciler: apply_fastlane_metadata (lines 181-268) -/

/-- Python str.strip() on a String. -/
def strS (s : String) : String := ⟨pyStrip s.data⟩

/-- repo_slug.replace('/', '_') of line 205 (on the character list, so
that it evaluates inside the kernel). -/
def slugUnderscore (s : String) : String :=
  ⟨s.data.map fun c => if c = '/' then '_' else c⟩

/-- The fields of a package's metadata YAML document that
apply_fastlane_metadata reads or writes (lines 226-240). -/
structure Record where
  name : Option String := none
  summary : Option String := none
  description : Option String := none
  authorName : Option String := none
  sourceCode : Option String := none
  webSite : Option String := none
  issueTracker : Option String := none
deriving DecidableEq

/-- The record structure with no fields set; what `yaml.safe_load(f) or
\x7b\x7d` produces for an empty document (line 223). -/
def emptyRecord : Record := {}

/-- State of one package's metadata file: absent keys of the record store
model a missing file; `bad` models a file whose yaml.safe_load raises
(caught at lines 261-264); `emptyDoc` models a file parsing to None. -/
inductive YamlFile
  | bad
  | emptyDoc
  | doc (r : Record)
deriving DecidableEq

/-- One staged metadata bundle directory .temp_metadata_<dirName>: which
optional text files exist (with their contents), whether icon.png exists,
and the staged phoneScreenshots/*.png file names. -/
structure Bundle where
  dirName : String
  title : Option String := none
  shortDesc : Option String := none
  fullDesc : Option String := none
  icon : Bool := false
  screenshots : List String := []
deriving DecidableEq

/-- The on-disk state apply_fastlane_metadata manipulates: the staged
bundle directories, the loaded repo→package map, the per-package metadata
records under /data/metadata, the published icon and screenshot assets,
and whether PyYAML is importable (lines 185-187 return early without any
cleanup when it is not). -/
structure MetaState where
  bundles : List Bundle
  repoMap : List (String × String)
  records : List (String × YamlFile)
  icons : List (String × String)
  shots : List (String × String)
  yamlOk : Bool
deriving DecidableEq

/-- The matching loop of lines 204-208: the first map entry whose slug
with '/' replaced by '_' equals the bundle directory name. -/
def matchBundle (m : List (String × String)) (dirName : String) :
    Option (String × String) :=
  m.find? fun p => slugUnderscore p.1 == dirName

/-- Replace the binding of `k` (first occurrence) or append it; the
record write-back of lines 242-243. -/
def setAssoc (l : List (String × YamlFile)) (k : String) (v : YamlFile) :
    List (String × YamlFile) :=
  match l with
  | [] => [(k, v)]
  | (k1, v1) :: rest =>
    if k1 = k then (k, v) :: rest else (k1, v1) :: setAssoc rest k v

/-- Add an asset entry unless already present (shutil.copy overwriting an
existing file of the same name leaves the same asset set). -/
def addAsset (l : List (String × String)) (x : String × String) :
    List (String × String) :=
  if l.contains x then l else l ++ [x]

/-- Lines 226-240: overwrite Name/Summary/Description from the staged
files that exist (stripped, as read_text().strip()), then, since the
matched repo_slug is a nonempty string, set the four repo-derived fields. -/
def mergeRecord (b : Bundle) (slug : String) (r : Record) : Record :=
  let r1 : Record :=
    { r with
      name := match b.title with | some t => some (strS t) | none => r.name
      summary := match b.shortDesc with | some t => some (strS t) | none => r.summary
      description := match b.fullDesc with | some t => some (strS t) | none => r.description }
  if slug = "" then r1
  else
    { r1 with
      authorName := some (pySplitSlashHead slug)
      sourceCode := some ("https://github.com/" ++ slug)
      webSite := some ("https://github.com/" ++ slug)
      issueTracker := some ("https://github.com/" ++ slug ++ "/issues") }

/-- The per-bundle body of the loop at lines 199-264: skip when the
directory name matches no map entry (lines 210-212); skip when the
package's metadata file does not exist (lines 217-219); skip when reading
or parsing it raises (lines 261-264); otherwise merge, write the record
back, and copy icon and screenshots into the published per-locale asset
directory (lines 246-257). -/
def processBundleM (s : MetaState) (b : Bundle) : MetaState :=
  match matchBundle s.repoMap b.dirName with
  | none => s
  | some (slug, pkg) =>
    match s.records.lookup pkg with
    | none => s
    | some YamlFile.bad => s
    | some f =>
      let base := match f with
        | YamlFile.emptyDoc => emptyRecord
        | YamlFile.doc r => r
        | YamlFile.bad => emptyRecord
      let r1 := mergeRecord b slug base
      let s1 := { s with records := setAssoc s.records pkg (YamlFile.doc r1) }
      let s2 :=
        if b.icon then { s1 with icons := addAsset s1.icons (pkg, "icon.png") } else s1
      b.screenshots.foldl
        (fun st n => { st with shots := addAsset st.shots (pkg, n) }) s2

/-- apply_fastlane_metadata (lines 181-268): return immediately when
PyYAML is unavailable (lines 185-187, leaving the staged bundles in
place); otherwise process every staged bundle and then delete every
.temp_metadata_* directory unconditionally (lines 266-268). -/
def apply_fastlane_metadata (s : MetaState) : MetaState :=
  if s.yamlOk then
    let s1 := s.bundles.foldl processBundleM s
    { s1 with bundles := [] }
  else s

/-! ## IdentityStore save: lines 105-110 -/

/-- The sequence of contents a reader of /data/repo_package_map.json can
observe while lines 106-108 run: the old content, then the empty file
(open(map_file, 'w') truncates the target in place), then the fully
written serialization. -/
def saveObservableStates (old serialized : String) : List String :=
  [old, "", serialized]

/-- The observable target-file contents under the write-then-replace
discipline the spec describes (write the whole document to a temporary
location, then replace the target in one step): a reader sees only the
old or the new content.  This definition follows the spec's words, for
comparison with saveObservableStates, which follows the code. -/
def writeThenReplaceStates (old serialized : String) : List String :=
  [old, serialized]

/-! ## Structural predicates on line lists (used only in proofs) -/

/-- A keepends line: nonempty, with no newline before its last character. -/
def isLine (l : Doc) : Prop := l ≠ [] ∧ ∀ c ∈ l.dropLast, c ≠ '\n'

/-- A well-formed keepends line list: every element is a line, and every
element but the last ends with a newline.  splitLines always produces
such a list, and splitLines is a left inverse of flatten on them. -/
def wfL : List Doc → Prop
  | [] => True
  | l :: ls => isLine l ∧ (ls = [] ∨ l.getLast? = some '\n') ∧ wfL ls

/-- The first keepends line of a document. -/
def firstLine : Doc → Doc
  | [] => []
  | c :: cs => if c = '\n' then ['\n'] else c :: firstLine cs

/-- The marker-bearing line of the appended block (second physical line of
the f-string at lines 327-333). -/
def markerLine : Doc := "# --- TEMPORARY KEYSTORE CONFIG (AUTO-GENERATED) ---\n".data

/-- The remainder of the appended block after the marker line. -/
def keystoreTail (e : Env) : Doc :=
  "keystore: /app/config/keystore.jks\nrepo_keyalias: ".data ++ e.keyAlias
    ++ "\nkeystorepass: ".data ++ e.keystorePass
    ++ "\nkeypass: ".data ++ e.keyPass ++ "\n".data

/-! ## Concrete sample inputs for counterexamples and witnesses -/

/-- A concrete environment with empty credential values. -/
def env0 : Env := { keyAlias := [], keystorePass := [], keyPass := [] }

/-- A small marker-free, keystore-free configuration document. -/
def docA : Doc := "a: b\n".data

/-- A document carrying a leftover ephemeral suffix. -/
def docCrash : Doc := "a\nb --- TEMPORARY KEYSTORE CONFIG x\nc\n".data

/-- Cycle input: download happened, config present, pass-1 build raises. -/
def ciSkelFail : CycleInput :=
  { downloaded := true, cfgExists := true, updateOk1 := false,
    updateOk2 := true, signOk2 := true }

/-- Cycle input: download happened but config.yml is missing. -/
def ciNoConfig : CycleInput :=
  { downloaded := true, cfgExists := false, updateOk1 := true,
    updateOk2 := true, signOk2 := true }

/-- Fetch world with two configured repositories: the first has a fresh
release asset, the second's only asset is already present on disk. -/
def wTwoRepos : FetchWorld :=
  { outcomes :=
      [ { slug := "a/x", fetchOk := true, assets := [{ name := "new.apk", downloadOk := true }] },
        { slug := "b/y", fetchOk := true, assets := [{ name := "old.apk", downloadOk := true }] } ],
    existing0 := ["old.apk"],
    mapFile := none,
    inspector := [] }

/-- Fetch world whose persisted map already binds o/r to com.p, while a
fresh artifact for the same source would inspect to a different id. -/
def wMapped : FetchWorld :=
  { outcomes :=
      [ { slug := "o/r", fetchOk := true, assets := [{ name := "new.apk", downloadOk := true }] } ],
    existing0 := [],
    mapFile := some (some [("o/r", "com.p")]),
    inspector := [("new.apk", "com.other")] }

/-- A staged bundle for upstream o/r with only a title file. -/
def bundleA : Bundle := { dirName := "o_r", title := some "My App" }

/-- Metadata state: one resolved bundle whose package record file is
absent. -/
def sAbsentRecord : MetaState :=
  { bundles := [bundleA], repoMap := [("o/r", "com.p")], records := [],
    icons := [], shots := [], yamlOk := true }

/-- Metadata state with a staged bundle but PyYAML unavailable. -/
def sNoYaml : MetaState :=
  { bundles := [bundleA], repoMap := [("o/r", "com.p")], records := [],
    icons := [], shots := [], yamlOk := false }

/-! ## Lemmas: keepends line splitting -/

theorem flatten_splitLines : ∀ d : Doc, (splitLines d).flatten = d
  | [] => rfl
  | c :: cs => by
    have ih := flatten_splitLines cs
    by_cases h : c = '\n'
    · subst h
      simp [splitLines, ih]
    · simp only [splitLines, if_neg h]
      cases hs : splitLines cs with
      | nil =>
        rw [hs] at ih
        simp at ih
        simp [← ih]
      | cons l ls =>
        rw [hs] at ih
        simp only [List.flatten_cons] at ih ⊢
        simp [ih]

theorem splitLines_ne_nil {c : Char} {cs : Doc} : splitLines (c :: cs) ≠ [] := by
  simp only [splitLines]
  by_cases h : c = '\n'
  · simp [h]
  · simp only [if_neg h]
    cases splitLines cs <;> simp

theorem splitLines_single {l : Doc} (h : isLine l) : splitLines l = [l] := by
  induction l with
  | nil => exact absurd rfl h.1
  | cons c cs ih =>
    cases cs with
    | nil =>
      by_cases hc : c = '\n'
      · subst hc; rfl
      · simp [splitLines, hc]
    | cons c2 cs2 =>
      have hc : c ≠ '\n' := by
        have := h.2 c
        simp [List.dropLast_cons₂] at this
        exact this
      have h2 : isLine (c2 :: cs2) := by
        refine ⟨by simp, fun x hx => h.2 x ?_⟩
        simp [List.dropLast_cons₂]
        exact Or.inr hx
      rw [show splitLines (c :: c2 :: cs2) =
            (if c = '\n' then ['\n'] :: splitLines (c2 :: cs2) else
              match splitLines (c2 :: cs2) with
              | [] => [[c]]
              | l :: ls => (c :: l) :: ls) from rfl]
      rw [if_neg hc, ih h2]

theorem splitLines_terminated_append {l : Doc} (r : Doc) (h : isLine l)
    (hl : l.getLast? = some '\n') : splitLines (l ++ r) = l :: splitLines r := by
  induction l with
  | nil => simp at hl
  | cons c cs ih =>
    cases cs with
    | nil =>
      have : c = '\n' := by simpa using hl
      subst this
      simp [splitLines]
    | cons c2 cs2 =>
      have hc : c ≠ '\n' := by
        have := h.2 c
        simp [List.dropLast_cons₂] at this
        exact this
      have h2 : isLine (c2 :: cs2) := by
        refine ⟨by simp, fun x hx => h.2 x ?_⟩
        simp [List.dropLast_cons₂]
        exact Or.inr hx
      have hl2 : (c2 :: cs2).getLast? = some '\n' := by
        rwa [List.getLast?_cons_cons] at hl
      have ihr := ih h2 hl2
      rw [show (c :: c2 :: cs2) ++ r = c :: ((c2 :: cs2) ++ r) from rfl]
      rw [show splitLines (c :: ((c2 :: cs2) ++ r)) =
            (if c = '\n' then ['\n'] :: splitLines ((c2 :: cs2) ++ r) else
              match splitLines ((c2 :: cs2) ++ r) with
              | [] => [[c]]
              | l :: ls => (c :: l) :: ls) from rfl]
      rw [if_neg hc, ihr]

theorem splitLines_flatten_of_wf : ∀ {ls : List Doc}, wfL ls → splitLines ls.flatten = ls
  | [], _ => rfl
  | l :: ls, h => by
    obtain ⟨h1, h2, h3⟩ := h
    rcases h2 with h2 | h2
    · subst h2
      simp only [List.flatten_cons, List.flatten_nil, List.append_nil]
      exact splitLines_single h1
    · rw [List.flatten_cons, splitLines_terminated_append _ h1 h2,
        splitLines_flatten_of_wf h3]

theorem wfL_splitLines : ∀ d : Doc, wfL (splitLines d)
  | [] => trivial
  | c :: cs => by
    have ih := wfL_splitLines cs
    by_cases h : c = '\n'
    · subst h
      rw [show splitLines ('\n' :: cs) = ['\n'] :: splitLines cs from rfl]
      exact ⟨⟨by simp, by simp⟩, Or.inr rfl, ih⟩
    · rw [show splitLines (c :: cs) =
            (if c = '\n' then ['\n'] :: splitLines cs else
              match splitLines cs with
              | [] => [[c]]
              | l :: ls => (c :: l) :: ls) from rfl, if_neg h]
      cases hs : splitLines cs with
      | nil => exact ⟨⟨by simp, by simp⟩, Or.inl rfl, trivial⟩
      | cons l ls =>
        rw [hs] at ih
        obtain ⟨⟨hl1, hl2⟩, hl3, hl4⟩ := ih
        refine ⟨⟨by simp, ?_⟩, ?_, hl4⟩
        · intro x hx
          cases l with
          | nil => exact absurd rfl hl1
          | cons y ys =>
            rw [List.dropLast_cons₂, List.mem_cons] at hx
            rcases hx with hx | hx
            · subst hx; exact h
            · exact hl2 x hx
        · rcases hl3 with hl3 | hl3
          · exact Or.inl hl3
          · refine Or.inr ?_
            cases l with
            | nil => exact absurd rfl hl1
            | cons y ys => rwa [List.getLast?_cons_cons]

theorem wfL_takeWhile (P : Doc → Bool) : ∀ {ls : List Doc}, wfL ls → wfL (ls.takeWhile P)
  | [], _ => trivial
  | l :: ls, h => by
    obtain ⟨h1, h2, h3⟩ := h
    by_cases hp : P l
    · rw [List.takeWhile_cons_of_pos hp]
      refine ⟨h1, ?_, wfL_takeWhile P h3⟩
      rcases h2 with h2 | h2
      · subst h2; exact Or.inl rfl
      · exact Or.inr h2
    · rw [List.takeWhile_cons_of_neg hp]
      trivial

theorem splitLines_truncateAtMarker (d : Doc) :
    splitLines (truncateAtMarker d) =
      (splitLines d).takeWhile (fun l => !lineHasMarker l) :=
  splitLines_flatten_of_wf (wfL_takeWhile _ (wfL_splitLines d))

theorem hasMarker_truncateAtMarker (d : Doc) :
    hasMarker (truncateAtMarker d) = false := by
  rw [hasMarker, splitLines_truncateAtMarker]
  rw [List.any_eq_false]
  intro l hl
  have := List.mem_takeWhile_imp hl
  simpa using this

theorem hasMarker_entryStep (d : Doc) : hasMarker (entryStep d) = false := by
  rw [entryStep]
  by_cases h : hasMarker d
  · rw [if_pos h]; exact hasMarker_truncateAtMarker d
  · rw [if_neg h]; simpa using h

/-! ## Lemmas: substring occurrence and the marker -/

theorem containsSub_iff {pat : Doc} : ∀ {l : Doc}, containsSub pat l = true ↔ pat <:+: l
  | [] => by
    rw [containsSub]
    simp [List.isEmpty_iff, List.infix_nil]
  | c :: cs => by
    rw [containsSub, List.infix_cons_iff]
    simp only [Bool.or_eq_true, List.isPrefixOf_iff_prefix]
    rw [containsSub_iff]

theorem markerD_ne_nil : markerD ≠ [] := by decide

theorem newline_not_mem_markerD : '\n' ∉ markerD := by decide

theorem infix_of_append_newline {pat x : Doc} (hne : pat ≠ [])
    (hnl : '\n' ∉ pat) (h : pat <:+: x ++ ['\n']) : pat <:+: x := by
  obtain ⟨s, t, hst⟩ := h
  cases t with
  | nil =>
    exfalso
    rw [List.append_nil] at hst
    have hdec : pat = pat.dropLast ++ [pat.getLast hne] :=
      (List.dropLast_append_getLast hne).symm
    rw [hdec, ← List.append_assoc] at hst
    have := (List.append_inj' hst (by simp)).2
    have hlast : pat.getLast hne = '\n' := by simpa using this
    exact hnl (hlast ▸ List.getLast_mem hne)
  | cons t0 ts =>
    have htne : t0 :: ts ≠ [] := by simp
    have hdec : t0 :: ts = (t0 :: ts).dropLast ++ [(t0 :: ts).getLast htne] :=
      (List.dropLast_append_getLast htne).symm
    rw [hdec, ← List.append_assoc] at hst
    have := (List.append_inj' hst (by simp)).1
    exact ⟨s, (t0 :: ts).dropLast, this⟩

theorem firstLine_cons (c : Char) (cs : Doc) :
    firstLine (c :: cs) = if c = '\n' then ['\n'] else c :: firstLine cs := rfl

theorem splitLines_head : ∀ (c : Char) (cs : Doc),
    ∃ t, splitLines (c :: cs) = firstLine (c :: cs) :: t := by
  intro c cs
  induction cs generalizing c with
  | nil =>
    by_cases h : c = '\n'
    · subst h; exact ⟨[], rfl⟩
    · refine ⟨[], ?_⟩
      rw [show splitLines [c] =
            (if c = '\n' then ['\n'] :: splitLines [] else
              match splitLines [] with
              | [] => [[c]]
              | l :: ls => (c :: l) :: ls) from rfl, if_neg h]
      rw [firstLine_cons, if_neg h]
      rfl
  | cons c2 cs2 ih =>
    by_cases h : c = '\n'
    · subst h
      exact ⟨splitLines (c2 :: cs2), rfl⟩
    · obtain ⟨t, ht⟩ := ih c2
      refine ⟨t, ?_⟩
      rw [show splitLines (c :: c2 :: cs2) =
            (if c = '\n' then ['\n'] :: splitLines (c2 :: cs2) else
              match splitLines (c2 :: cs2) with
              | [] => [[c]]
              | l :: ls => (c :: l) :: ls) from rfl, if_neg h, ht]
      rw [firstLine_cons c (c2 :: cs2), if_neg h]

theorem prefix_firstLine {pat : Doc} (hnl : '\n' ∉ pat) :
    ∀ {d : Doc}, pat <+: d → pat <+: firstLine d := by
  induction pat with
  | nil => intro d _; exact List.nil_prefix
  | cons p ps ih =>
    intro d hp
    cases d with
    | nil => exact absurd (List.prefix_nil.mp hp) (by simp)
    | cons c cs =>
      rw [List.cons_prefix_cons] at hp
      obtain ⟨hpc, hps⟩ := hp
      subst hpc
      have hpne : p ≠ '\n' := fun h => hnl (by simp [h])
      rw [firstLine, if_neg hpne]
      rw [List.cons_prefix_cons]
      exact ⟨rfl, ih (fun h => hnl (by simp [h])) hps⟩

theorem infix_some_line {pat : Doc} (hne : pat ≠ []) (hnl : '\n' ∉ pat) :
    ∀ {d : Doc}, pat <:+: d → ∃ l ∈ splitLines d, pat <:+: l := by
  intro d
  induction d with
  | nil =>
    intro h
    exact absurd (List.infix_nil.mp h) hne
  | cons c cs ih =>
    intro h
    rcases List.infix_cons_iff.mp h with h | h
    · obtain ⟨t, ht⟩ := splitLines_head c cs
      exact ⟨firstLine (c :: cs), by rw [ht]; exact List.mem_cons_self _ _,
        (prefix_firstLine hnl h).isInfix⟩
    · obtain ⟨l, hl, hpl⟩ := ih h
      by_cases hc : c = '\n'
      · subst hc
        exact ⟨l, List.mem_cons_of_mem _ hl, hpl⟩
      · rw [show splitLines (c :: cs) =
              (if c = '\n' then ['\n'] :: splitLines cs else
                match splitLines cs with
                | [] => [[c]]
                | l :: ls => (c :: l) :: ls) from rfl, if_neg hc]
        cases hs : splitLines cs with
        | nil => rw [hs] at hl; exact absurd hl (by simp)
        | cons l0 ls =>
          rw [hs] at hl
          rcases List.mem_cons.mp hl with hl | hl
          · subst hl
            exact ⟨c :: l, List.mem_cons_self _ _, hpl.trans ⟨[c], [], by simp⟩⟩
          · exact ⟨l, List.mem_cons_of_mem _ hl, hpl⟩

theorem mem_flatten_infixOf {l : Doc} : ∀ {ls : List Doc}, l ∈ ls → l <:+: ls.flatten := by
  intro ls h
  induction ls with
  | nil => exact absurd h (by simp)
  | cons x xs ih =>
    rcases List.mem_cons.mp h with h | h
    · subst h
      exact ⟨[], xs.flatten, by simp⟩
    · obtain ⟨s, t, hst⟩ := ih h
      exact ⟨x ++ s, t, by rw [List.flatten_cons, ← hst]; simp⟩

theorem mem_splitLines_infixOf {l d : Doc} (h : l ∈ splitLines d) : l <:+: d :=
  flatten_splitLines d ▸ mem_flatten_infixOf h

theorem hasMarker_iff {d : Doc} : hasMarker d = true ↔ markerD <:+: d := by
  constructor
  · intro h
    rw [hasMarker, List.any_eq_true] at h
    obtain ⟨l, hl, hml⟩ := h
    rw [lineHasMarker, containsSub_iff] at hml
    exact hml.trans (mem_splitLines_infixOf hl)
  · intro h
    obtain ⟨l, hl, hml⟩ := infix_some_line markerD_ne_nil newline_not_mem_markerD h
    rw [hasMarker, List.any_eq_true]
    exact ⟨l, hl, by rw [lineHasMarker, containsSub_iff]; exact hml⟩

theorem hasMarker_append_newline {d : Doc} (h : hasMarker d = false) :
    hasMarker (d ++ ['\n']) = false := by
  rw [Bool.eq_false_iff] at h ⊢
  intro hcon
  exact h (hasMarker_iff.mpr
    (infix_of_append_newline markerD_ne_nil newline_not_mem_markerD
      (hasMarker_iff.mp hcon)))

/-! ## Lemmas: appending the keystore block and truncating it away -/

theorem splitLines_append_newline_cons : ∀ (a m : Doc),
    splitLines (a ++ '\n' :: m) = splitLines (a ++ ['\n']) ++ splitLines m := by
  intro a
  induction a with
  | nil =>
    intro m
    rw [List.nil_append, show splitLines ('\n' :: m) = ['\n'] :: splitLines m from rfl]
    rfl
  | cons c a2 ih =>
    intro m
    by_cases h : c = '\n'
    · subst h
      rw [show ('\n' :: a2) ++ '\n' :: m = '\n' :: (a2 ++ '\n' :: m) from rfl,
        show splitLines ('\n' :: (a2 ++ '\n' :: m)) =
          ['\n'] :: splitLines (a2 ++ '\n' :: m) from rfl, ih m,
        show ('\n' :: a2) ++ ['\n'] = '\n' :: (a2 ++ ['\n']) from rfl,
        show splitLines ('\n' :: (a2 ++ ['\n'])) =
          ['\n'] :: splitLines (a2 ++ ['\n']) from rfl]
      rfl
    · have hne : a2 ++ ['\n'] ≠ [] := by simp
      cases hs : splitLines (a2 ++ ['\n']) with
      | nil =>
        exfalso
        cases hc : a2 ++ ['\n'] with
        | nil => exact hne hc
        | cons y ys => exact splitLines_ne_nil (hc ▸ hs)
      | cons l ls =>
        rw [show (c :: a2) ++ '\n' :: m = c :: (a2 ++ '\n' :: m) from rfl,
          show splitLines (c :: (a2 ++ '\n' :: m)) =
            (if c = '\n' then ['\n'] :: splitLines (a2 ++ '\n' :: m) else
              match splitLines (a2 ++ '\n' :: m) with
              | [] => [[c]]
              | l :: ls => (c :: l) :: ls) from rfl, if_neg h, ih m, hs,
          show (c :: a2) ++ ['\n'] = c :: (a2 ++ ['\n']) from rfl,
          show splitLines (c :: (a2 ++ ['\n'])) =
            (if c = '\n' then ['\n'] :: splitLines (a2 ++ ['\n']) else
              match splitLines (a2 ++ ['\n']) with
              | [] => [[c]]
              | l :: ls => (c :: l) :: ls) from rfl, if_neg h, hs]
        rfl

theorem keystoreConfig_eq (e : Env) :
    keystoreConfig e = '\n' :: (markerLine ++ keystoreTail e) := by
  have h1 : ("\n# --- TEMPORARY KEYSTORE CONFIG (AUTO-GENERATED) ---\nkeystore: /app/config/keystore.jks\nrepo_keyalias: ").data
      = '\n' :: (markerLine ++ "keystore: /app/config/keystore.jks\nrepo_keyalias: ".data) := by
    decide
  rw [keystoreConfig, keystoreTail, h1]
  simp [List.append_assoc]

theorem isLine_markerLine : isLine markerLine := by
  constructor
  · decide
  · decide

theorem markerLine_getLast : markerLine.getLast? = some '\n' := by decide

theorem lineHasMarker_markerLine : lineHasMarker markerLine = true := by decide

theorem takeWhile_append_stop (P : Doc → Bool) (y : Doc) (ys : List Doc) :
    ∀ (A : List Doc), (∀ l ∈ A, P l = true) → P y = false →
      (A ++ y :: ys).takeWhile P = A := by
  intro A
  induction A with
  | nil =>
    intro _ hy
    rw [List.nil_append, List.takeWhile_cons_of_neg (by simp [hy])]
  | cons x A2 ih =>
    intro hA hy
    rw [List.cons_append, List.takeWhile_cons_of_pos (hA x (List.mem_cons_self _ _)),
      ih (fun l hl => hA l (List.mem_cons_of_mem _ hl)) hy]

theorem truncate_append_keystore (e : Env) {a : Doc} (ha : hasMarker a = false) :
    truncateAtMarker (a ++ keystoreConfig e) = a ++ ['\n'] := by
  rw [keystoreConfig_eq, truncateAtMarker, splitLines_append_newline_cons,
    splitLines_terminated_append (keystoreTail e) isLine_markerLine markerLine_getLast]
  rw [takeWhile_append_stop _ markerLine (splitLines (keystoreTail e)) _ ?hall ?hstop]
  · exact flatten_splitLines (a ++ ['\n'])
  case hall =>
    intro l hl
    have h2 := hasMarker_append_newline ha
    rw [hasMarker, List.any_eq_false] at h2
    simp [h2 l hl]
  case hstop =>
    simp [lineHasMarker_markerLine]

/-! ## Lemmas: run_fdroid_update document effects -/

theorem entryStep_no_marker {d : Doc} (h : hasMarker d = false) : entryStep d = d := by
  rw [entryStep, if_neg (by simp [h])]

theorem run_update_doc (e : Env) (sign updateOk signOk : Bool) {d : Doc}
    (hm : hasMarker d = false) (hk : hasKeystore d = false) :
    (run_fdroid_update e true sign updateOk signOk d).doc = d ++ ['\n'] := by
  rw [run_fdroid_update, if_pos rfl]
  simp only [entryStep_no_marker hm, hk, Bool.not_false, if_pos]
  exact truncate_append_keystore e hm

theorem run_update_no_marker (e : Env) (sign updateOk signOk : Bool) (d : Doc) :
    hasMarker (run_fdroid_update e true sign updateOk signOk d).doc = false := by
  rw [run_fdroid_update, if_pos rfl]
  by_cases hk : hasKeystore (entryStep d)
  · simp only [hk, Bool.not_true, Bool.false_eq_true, if_neg]
    exact hasMarker_entryStep d
  · simp only [Bool.not_eq_true] at hk
    simp only [hk, Bool.not_false, if_pos]
    exact hasMarker_truncateAtMarker _

theorem takeWhile_not_eq_take_findIdx (p : Doc → Bool) :
    ∀ ls : List Doc, ls.takeWhile (fun x => !p x) = ls.take (ls.findIdx p) := by
  intro ls
  induction ls with
  | nil => rfl
  | cons x ls ih =>
    rw [List.findIdx_cons]
    by_cases hp : p x
    · rw [List.takeWhile_cons_of_neg (by simp [hp]), hp]
      rfl
    · rw [List.takeWhile_cons_of_pos (by simp [hp]),
        show p x = false from by simpa using hp]
      rw [show (cond false 0 (List.findIdx p ls + 1)) = List.findIdx p ls + 1 from rfl,
        List.take_succ_cons, ih]

/-! ## Claim C1 -/

/-- C1, counterexample.  The claim states that a build invocation on a
ConfigDocument with no permanent credential field leaves the document
byte-identical.  It is false already on the empty document, which has no
keystore line: the invocation leaves a document that differs from the
original (a trailing newline of the appended credential block survives the
exit truncation). -/
theorem config_roundtrip_counterexample :
    hasKeystore ([] : Doc) = false ∧
    (run_fdroid_update env0 true true true true ([] : Doc)).doc ≠ ([] : Doc) := by
  refine ⟨rfl, ?_⟩
  rw [run_update_doc env0 true true true (d := ([] : Doc)) rfl rfl]
  simp

/-- C1 (corrected).  For every environment, sign flag, build outcome and
ConfigDocument that contains neither a marker line nor a permanent
credential field (no line whose stripped text starts with keystore:), one
complete build invocation leaves the document byte-identical to its prior
state except for exactly one appended newline character: the blank line
of the appended credential block precedes the marker line, so the exit
truncation keeps it. -/
theorem config_roundtrip_appends_newline (e : Env) (sign updateOk signOk : Bool)
    (d : Doc) (hm : hasMarker d = false) (hk : hasKeystore d = false) :
    (run_fdroid_update e true sign updateOk signOk d).doc = d ++ ['\n'] :=
  run_update_doc e sign updateOk signOk hm hk

/-- C1, witness: the corrected statement evaluated on a concrete one-line
document. -/
theorem config_roundtrip_appends_newline_witness :
    hasMarker docA = false ∧ hasKeystore docA = false ∧
    (run_fdroid_update env0 true true true true docA).doc = docA ++ ['\n'] :=
  ⟨by decide, by decide,
    config_roundtrip_appends_newline env0 true true true docA (by decide) (by decide)⟩

/-! ## Claim C2 -/

/-- C2 (confirmed).  For every initial ConfigDocument and every build
invocation (any sign flag, the wrapped build tool succeeding or raising),
immediately after the invocation completes the document contains no
ephemeral marker line, hence no credential suffix — in fact
unconditionally, so in particular whenever no suffix was present before
orchestration began. -/
theorem post_invocation_no_marker (e : Env) (sign updateOk signOk : Bool) (d : Doc) :
    hasMarker (run_fdroid_update e true sign updateOk signOk d).doc = false :=
  run_update_no_marker e sign updateOk signOk d

/-! ## Claim C3 -/

/-- C3 (confirmed).  Whenever the marker line is present, the entry step
rewrites the document to exactly the concatenation of the lines strictly
preceding the first marker line; and the entry step is idempotent. -/
theorem entry_truncation_exact_idempotent (d : Doc) :
    (hasMarker d = true →
      entryStep d =
        ((splitLines d).take ((splitLines d).findIdx lineHasMarker)).flatten) ∧
    entryStep (entryStep d) = entryStep d := by
  constructor
  · intro h
    rw [entryStep, if_pos h, truncateAtMarker, takeWhile_not_eq_take_findIdx]
  · exact entryStep_no_marker (hasMarker_entryStep d)

/-- C3, witness: entry truncation evaluated on a document carrying a
leftover suffix. -/
theorem entry_truncation_exact_idempotent_witness :
    hasMarker docCrash = true ∧
    entryStep docCrash =
      ((splitLines docCrash).take ((splitLines docCrash).findIdx lineHasMarker)).flatten ∧
    entryStep (entryStep docCrash) = entryStep docCrash :=
  ⟨by decide, (entry_truncation_exact_idempotent docCrash).1 (by decide),
    (entry_truncation_exact_idempotent docCrash).2⟩

/-! ## Claim C4 -/

/-- C4 (confirmed).  In every cycle whose skeleton build invocation fails
(download happened, config present, the pass-1 update subprocess raises),
the reconciliation step and the final signed build do not run, the
document is left with no ephemeral suffix, the failure is caught and
logged by the loop boundary, and control proceeds to the sleep step, so
the process starts the next cycle rather than terminating. -/
theorem skeleton_failure_isolated (e : Env) (updateOk2 signOk2 : Bool) (d : Doc) :
    (runCycle e ⟨true, true, false, updateOk2, signOk2⟩ d).reconciled = false ∧
    (runCycle e ⟨true, true, false, updateOk2, signOk2⟩ d).finalInvoked = false ∧
    (runCycle e ⟨true, true, false, updateOk2, signOk2⟩ d).errorLogged = true ∧
    (runCycle e ⟨true, true, false, updateOk2, signOk2⟩ d).sleeps = true ∧
    hasMarker (runCycle e ⟨true, true, false, updateOk2, signOk2⟩ d).doc = false :=
  ⟨rfl, rfl, rfl, rfl, run_update_no_marker e false false true d⟩

/-! ## Claim C5 -/

/-- C5, counterexample.  The claim states that a missing base
configuration behaves like a failed build pass, so that for a failed
skeleton pass reconciliation and the final build do not run.  In the
code, run_fdroid_update merely logs an error and returns, so in a cycle
with a download and no config.yml the reconciliation step and the pass-2
invocation still run. -/
theorem missing_config_counterexample :
    (runCycle env0 ciNoConfig []).reconciled = true ∧
    (runCycle env0 ciNoConfig []).finalInvoked = true :=
  ⟨rfl, rfl⟩

/-- C5 (corrected).  When the base configuration document does not exist
and cannot be copied into place, the build invocation logs an error and
returns normally without raising; it performs no build, but it is not
surfaced as a failure of the pass: the remainder of the cycle still runs
(reconciliation and the pass-2 invocation, which likewise returns without
building), no exception reaches the loop boundary, the document state is
untouched, and the process keeps running. -/
theorem missing_config_continues (e : Env) (updateOk1 updateOk2 signOk2 : Bool) (d : Doc) :
    runCycle e ⟨true, false, updateOk1, updateOk2, signOk2⟩ d =
      { doc := d, harvested := true, reconciled := true, finalInvoked := true,
        errorLogged := false, sleeps := true } :=
  rfl

/-! ## Lemmas: fetch_apks map preservation -/

theorem lookup_append_left {l l2 : List (String × String)} {k : String} {v : String}
    (h : l.lookup k = some v) : (l ++ l2).lookup k = some v := by
  induction l with
  | nil => simp [List.lookup] at h
  | cons p rest ih =>
    obtain ⟨k1, v1⟩ := p
    rw [List.lookup_cons] at h
    rw [show ((k1, v1) :: rest) ++ l2 = (k1, v1) :: (rest ++ l2) from rfl,
      List.lookup_cons]
    cases hk : (k == k1) with
    | true => rw [hk] at h; simpa [hk] using h
    | false => rw [hk] at h; simpa [hk] using ih h

theorem processAsset_lookup {insp : List (String × String)} {slug : String}
    {st : FetchSt} {a : Asset} {src P : String} (h : st.map.lookup src = some P) :
    ∀ {r : FetchSt}, processAsset insp slug st a = some r → r.map.lookup src = some P := by
  intro r hr
  rw [processAsset] at hr
  by_cases h1 : pyEndsWith ".apk" a.name
  · have hn1 : ¬((!pyEndsWith ".apk" a.name) = true) := by simp [h1]
    rw [if_neg hn1] at hr
    by_cases h2 : st.files.contains a.name
    · rw [if_pos h2] at hr
      dsimp only at hr
      by_cases h3 : (st.map.lookup slug).isNone && st.files.contains a.name
      · rw [if_pos h3] at hr
        cases hl : insp.lookup a.name with
        | some p =>
          rw [hl] at hr
          cases hr
          exact lookup_append_left h
        | none => rw [hl] at hr; cases hr; exact h
      · rw [if_neg h3] at hr; cases hr; exact h
    · rw [if_neg h2] at hr
      by_cases h4 : a.downloadOk
      · rw [if_pos h4] at hr
        dsimp only at hr
        by_cases h5 : ((st.map.lookup slug).isNone &&
            (st.files ++ [a.name]).contains a.name)
        · rw [if_pos h5] at hr
          cases hl : insp.lookup a.name with
          | some p =>
            rw [hl] at hr
            cases hr
            exact lookup_append_left h
          | none => rw [hl] at hr; cases hr; exact h
        · rw [if_neg h5] at hr; cases hr; exact h
      · rw [if_neg h4] at hr; cases hr
  · have hp1 : (!pyEndsWith ".apk" a.name) = true := by simp [h1]
    rw [if_pos hp1] at hr
    cases hr
    exact h

theorem processAssets_lookup (insp : List (String × String)) (slug : String)
    {src P : String} : ∀ (as : List Asset) (st : FetchSt),
    st.map.lookup src = some P →
    (processAssets insp slug st as).map.lookup src = some P := by
  intro as
  induction as with
  | nil => intro st h; exact h
  | cons a rest ih =>
    intro st h
    rw [processAssets]
    cases hp : processAsset insp slug st a with
    | none => exact h
    | some st1 => exact ih st1 (processAsset_lookup h hp)

theorem processRepo_lookup (insp : List (String × String)) {src P : String}
    (st : FetchSt) (o : RepoOutcome) (h : st.map.lookup src = some P) :
    (processRepo insp st o).map.lookup src = some P := by
  rw [processRepo]
  by_cases hf : o.fetchOk
  · rw [if_pos hf]; exact processAssets_lookup insp o.slug o.assets st h
  · rw [if_neg hf]; exact h

theorem foldl_processRepo_lookup (insp : List (String × String)) {src P : String} :
    ∀ (os : List RepoOutcome) (st : FetchSt), st.map.lookup src = some P →
    ((os.foldl (processRepo insp) st).map).lookup src = some P := by
  intro os
  induction os with
  | nil => intro st h; exact h
  | cons o rest ih =>
    intro st h
    rw [List.foldl_cons]
    exact ih _ (processRepo_lookup insp st o h)

/-! ## Claim C9 -/

/-- C9 (confirmed).  For every upstream source already mapped to package
identifier P in the persisted identity mapping (the map file parses to a
mapping containing source → P), a run of the artifact fetcher leaves that
entry in the mapping it saves: the loop only ever appends bindings for
sources that are not yet mapped, and association lookup returns the first
binding, so the entry's value can never change — even when a fresh
artifact for that source is downloaded and inspected to a different
package identifier.  When the map file is absent or unparseable the load
step yields the empty mapping, which contains no entry to preserve. -/
theorem identity_mapping_stable (w : FetchWorld) (m : List (String × String))
    (src P : String) (hf : w.mapFile = some (some m)) (hm : m.lookup src = some P) :
    (fetch_apks w).map.lookup src = some P := by
  rw [fetch_apks]
  apply foldl_processRepo_lookup
  rw [initFetchSt, hf]
  exact hm

/-- C9, witness: a world whose persisted map binds o/r to com.p while a
freshly downloaded artifact for o/r would inspect to com.other; the saved
mapping still binds o/r to com.p. -/
theorem identity_mapping_stable_witness :
    (fetch_apks wMapped).map.lookup "o/r" = some "com.p" :=
  identity_mapping_stable wMapped [("o/r", "com.p")] "o/r" "com.p" rfl rfl

/-! ## Lemmas: the downloaded flag of fetch_apks -/

theorem processAsset_flag (insp : List (String × String)) (slug : String)
    (f : List String) (m : List (String × String)) (b : Bool) (a : Asset) :
    processAsset insp slug ⟨f, m, b⟩ a =
      (processAsset insp slug ⟨f, m, false⟩ a).map
        (fun r => ⟨r.files, r.map, b || r.downloaded⟩) := by
  rw [processAsset, processAsset]
  by_cases h1 : pyEndsWith ".apk" a.name
  · have hn1 : ¬((!pyEndsWith ".apk" a.name) = true) := by simp [h1]
    rw [if_neg hn1, if_neg hn1]
    dsimp only
    by_cases h2 : f.contains a.name
    · rw [if_pos h2, if_pos h2]
      dsimp only
      by_cases h3 : (m.lookup slug).isNone && f.contains a.name
      · rw [if_pos h3, if_pos h3]
        cases hl : insp.lookup a.name with
        | some p => simp
        | none => simp
      · rw [if_neg h3, if_neg h3]; simp
    · rw [if_neg h2, if_neg h2]
      by_cases h4 : a.downloadOk
      · rw [if_pos h4]
        dsimp only
        by_cases h5 : (m.lookup slug).isNone && (f ++ [a.name]).contains a.name
        · rw [if_pos h5]
          cases hl : insp.lookup a.name with
          | some p => simp
          | none => simp
        · rw [if_neg h5]; simp
      · rw [if_neg h4]; simp
  · have hp1 : (!pyEndsWith ".apk" a.name) = true := by simp [h1]
    rw [if_pos hp1, if_pos hp1]
    simp

theorem processAssets_flag (insp : List (String × String)) (slug : String) :
    ∀ (as : List Asset) (f : List String) (m : List (String × String)) (b : Bool),
    processAssets insp slug ⟨f, m, b⟩ as =
      ⟨(processAssets insp slug ⟨f, m, false⟩ as).files,
       (processAssets insp slug ⟨f, m, false⟩ as).map,
       b || (processAssets insp slug ⟨f, m, false⟩ as).downloaded⟩ := by
  intro as
  induction as with
  | nil => intro f m b; simp [processAssets]
  | cons a rest ih =>
    intro f m b
    rw [processAssets, processAssets, processAsset_flag]
    cases hp : processAsset insp slug ⟨f, m, false⟩ a with
    | none => simp
    | some r0 =>
      obtain ⟨f0, m0, b0⟩ := r0
      simp only [Option.map]
      rw [ih f0 m0 (b || b0), ih f0 m0 b0]
      simp [Bool.or_assoc]

theorem processRepo_flag (insp : List (String × String))
    (f : List String) (m : List (String × String)) (b : Bool) (o : RepoOutcome) :
    processRepo insp ⟨f, m, b⟩ o =
      ⟨(processRepo insp ⟨f, m, false⟩ o).files,
       (processRepo insp ⟨f, m, false⟩ o).map,
       b || (processRepo insp ⟨f, m, false⟩ o).downloaded⟩ := by
  rw [processRepo, processRepo]
  by_cases h : o.fetchOk
  · rw [if_pos h, if_pos h]
    exact processAssets_flag insp o.slug o.assets f m b
  · rw [if_neg h, if_neg h]
    simp

theorem foldl_processRepo_downloaded (insp : List (String × String)) :
    ∀ (os : List RepoOutcome) (st : FetchSt), st.downloaded = true →
    (os.foldl (processRepo insp) st).downloaded = true := by
  intro os
  induction os with
  | nil => intro st h; exact h
  | cons o rest ih =>
    intro st h
    obtain ⟨f, m, b⟩ := st
    rw [List.foldl_cons, processRepo_flag]
    apply ih
    simp only at h
    simp [h]

theorem fetchStateThrough_succ (w : FetchWorld) (i : Nat) (o : RepoOutcome)
    (hi : w.outcomes[i]? = some o) :
    fetchStateThrough w (i + 1) = processRepo w.inspector (fetchStateThrough w i) o := by
  rw [fetchStateThrough, fetchStateThrough, List.take_succ, hi]
  simp [List.foldl_append]

theorem fetch_apks_eq_through (w : FetchWorld) (i : Nat) :
    fetch_apks w =
      (w.outcomes.drop i).foldl (processRepo w.inspector) (fetchStateThrough w i) := by
  rw [fetch_apks, fetchStateThrough, ← List.foldl_append, List.take_append_drop]

theorem repoActivity_downloaded (w : FetchWorld) (i : Nat)
    (h : repoActivity w i = true) : (fetch_apks w).downloaded = true := by
  rw [repoActivity] at h
  cases hi : w.outcomes[i]? with
  | none => rw [hi] at h; exact absurd h (by simp)
  | some o =>
    rw [hi] at h
    rw [fetch_apks_eq_through w (i + 1)]
    apply foldl_processRepo_downloaded
    rw [fetchStateThrough_succ w i o hi]
    rw [show fetchStateThrough w i =
          (⟨(fetchStateThrough w i).files, (fetchStateThrough w i).map,
            (fetchStateThrough w i).downloaded⟩ : FetchSt) from rfl,
      processRepo_flag]
    simp only at h
    simp [h]

/-! ## Claim C8 -/

/-- C8, counterexample.  The claim states that the harvester attempts a
metadata fetch only for upstreams with at least one newly-seen release
and not for configured upstreams whose artifacts were all already
present.  In the world wTwoRepos the first repository downloads a new
artifact while the second's only artifact is already on disk, yet the
harvester is attempted for the second repository as well, since main
passes the full configured list whenever any download happened. -/
theorem harvest_dispatch_counterexample :
    harvestAttempts wTwoRepos = ["a/x", "b/y"] ∧
    repoActivity wTwoRepos 1 = false := by
  constructor
  · decide
  · decide

/-- C8 (corrected).  The harvester is attempted for every configured
upstream exactly when the fetch phase downloaded at least one new
artifact anywhere this cycle, and for none otherwise; there is no
per-upstream filtering, and any single repository's activity triggers
harvesting of the full list. -/
theorem harvest_dispatch_all_or_nothing (w : FetchWorld) :
    ((fetch_apks w).downloaded = true →
      harvestAttempts w = w.outcomes.map RepoOutcome.slug) ∧
    ((fetch_apks w).downloaded = false → harvestAttempts w = []) ∧
    (∀ i : Nat, repoActivity w i = true → (fetch_apks w).downloaded = true) := by
  refine ⟨fun h => ?_, fun h => ?_, fun i h => repoActivity_downloaded w i h⟩
  · rw [harvestAttempts, if_pos h]
  · rw [harvestAttempts, if_neg (by simp [h])]

/-- C8, witness: in wTwoRepos a download happened, so the corrected
statement yields the full configured list as harvest targets. -/
theorem harvest_dispatch_all_or_nothing_witness :
    (fetch_apks wTwoRepos).downloaded = true ∧
    harvestAttempts wTwoRepos = wTwoRepos.outcomes.map RepoOutcome.slug :=
  ⟨by decide, (harvest_dispatch_all_or_nothing wTwoRepos).1 (by decide)⟩

/-! ## Claim C6 -/

/-- C6, counterexample.  The claim states that for a staged bundle whose
upstream resolves via the identity mapping, the reconciler creates an
empty record structure when the record file is absent and proceeds to
merge and persist it.  In the state sAbsentRecord the bundle resolves to
com.p and the record file is absent; after reconciliation no record for
com.p exists (the code logged a warning and skipped the bundle instead of
creating one). -/
theorem absent_record_counterexample :
    matchBundle sAbsentRecord.repoMap bundleA.dirName = some ("o/r", "com.p") ∧
    (apply_fastlane_metadata sAbsentRecord).records.lookup "com.p" = none := by
  constructor
  · decide
  · decide

/-- C6 (corrected).  For a staged bundle whose upstream resolves to a
package identifier, the reconciler proceeds only if that package's
record file exists: when the file is absent it logs a warning and skips
the bundle entirely (no record is created or persisted; the bundle is
still deleted at cleanup).  The empty-record fallback applies only to an
existing file whose YAML parses to nothing: such a file is treated as an
empty record structure, merged and persisted. -/
theorem foldl_shots_records (pkg : String) (bs : List String) :
    ∀ s : MetaState,
    (bs.foldl (fun st n => { st with shots := addAsset st.shots (pkg, n) }) s).records
      = s.records := by
  induction bs with
  | nil => intro s; rfl
  | cons x xs ih => intro s; rw [List.foldl_cons]; exact ih _

theorem processBundleM_absent {s : MetaState} {b : Bundle} {slug pkg : String}
    (hm : matchBundle s.repoMap b.dirName = some (slug, pkg))
    (habs : s.records.lookup pkg = none) : processBundleM s b = s := by
  rw [processBundleM, hm]
  dsimp only
  rw [habs]

theorem processBundleM_empty {s : MetaState} {b : Bundle} {slug pkg : String}
    (hm : matchBundle s.repoMap b.dirName = some (slug, pkg))
    (hemp : s.records.lookup pkg = some YamlFile.emptyDoc) :
    (processBundleM s b).records =
      setAssoc s.records pkg (YamlFile.doc (mergeRecord b slug emptyRecord)) := by
  rw [processBundleM, hm]
  dsimp only
  rw [hemp]
  dsimp only
  rw [foldl_shots_records]
  cases hic : b.icon
  · rfl
  · rfl

theorem absent_record_skips (s : MetaState) (b : Bundle) (slug pkg : String)
    (hy : s.yamlOk = true) (hb : s.bundles = [b])
    (hm : matchBundle s.repoMap b.dirName = some (slug, pkg)) :
    (s.records.lookup pkg = none →
      apply_fastlane_metadata s = { s with bundles := [] }) ∧
    (s.records.lookup pkg = some YamlFile.emptyDoc →
      (apply_fastlane_metadata s).records =
        setAssoc s.records pkg (YamlFile.doc (mergeRecord b slug emptyRecord))) := by
  have happ : apply_fastlane_metadata s =
      { s.bundles.foldl processBundleM s with bundles := [] } := by
    rw [apply_fastlane_metadata, if_pos (by simp [hy])]
  constructor
  · intro habs
    rw [happ, hb, List.foldl_cons, List.foldl_nil, processBundleM_absent hm habs]
  · intro hemp
    rw [happ, hb, List.foldl_cons, List.foldl_nil]
    exact processBundleM_empty hm hemp

/-- C6, witness: a state whose single bundle resolves to com.p and whose
record file is absent; reconciliation leaves the state unchanged apart
from deleting the staged bundle. -/
theorem absent_record_skips_witness :
    apply_fastlane_metadata sAbsentRecord = { sAbsentRecord with bundles := [] } :=
  (absent_record_skips sAbsentRecord bundleA "o/r" "com.p" rfl rfl (by decide)).1 (by decide)

/-! ## Claim C7 -/

/-- C7, counterexample.  The claim states that no staged bundle survives
to the end of the cycle.  When PyYAML is unavailable,
apply_fastlane_metadata returns at lines 185-187 before the cleanup loop,
and the staged bundle directories survive the cycle. -/
theorem bundle_cleanup_counterexample :
    (apply_fastlane_metadata sNoYaml).bundles = [bundleA] := by
  decide

/-- C7 (corrected).  Provided PyYAML is importable, after the
reconciliation step every staged bundle directory is deleted,
regardless of whether individual bundles matched a package identifier
and regardless of any per-bundle processing error; when PyYAML is
missing the reconciliation step returns before any processing or
cleanup and the staged bundles survive. -/
theorem bundle_cleanup_unconditional (s : MetaState) (hy : s.yamlOk = true) :
    (apply_fastlane_metadata s).bundles = [] := by
  rw [apply_fastlane_metadata, if_pos (by simp [hy])]

/-- C7, witness: cleanup on a state with an unmatched leftover bundle. -/
theorem bundle_cleanup_unconditional_witness :
    sAbsentRecord.yamlOk = true ∧ (apply_fastlane_metadata sAbsentRecord).bundles = [] :=
  ⟨rfl, bundle_cleanup_unconditional sAbsentRecord rfl⟩

/-! ## Claim C10 -/

/-- C10, counterexample.  The claim states that the identity store's save
writes to a temporary location and replaces the target in one step, so a
reader never observes a partially written document.  The code opens the
target itself in write mode, which truncates it in place: a reader can
observe the truncated (empty, partially written) file, which is neither
the old nor the new content. -/
theorem map_save_counterexample :
    "" ∈ saveObservableStates "a" "b" ∧ ("" : String) ≠ "a" ∧ ("" : String) ≠ "b" := by
  refine ⟨?_, ?_, ?_⟩
  · simp [saveObservableStates]
  · decide
  · decide

/-- C10 (corrected).  The save of lines 106-110 writes the document
directly into the target file: open(map_file, 'w') truncates it in place
before json.dump writes the serialization, so whenever the old and the
new contents are nonempty a reader can observe an intermediate state that
is neither of them; under the write-then-replace discipline the spec
describes, every observable state is the old or the new content. -/
theorem map_save_not_atomic (old serialized : String)
    (ho : old ≠ "") (hs : serialized ≠ "") :
    (∃ x ∈ saveObservableStates old serialized, x ≠ old ∧ x ≠ serialized) ∧
    (∀ x ∈ writeThenReplaceStates old serialized, x = old ∨ x = serialized) := by
  constructor
  · refine ⟨"", by simp [saveObservableStates], fun h => ho h.symm, fun h => hs h.symm⟩
  · intro x hx
    simp only [writeThenReplaceStates, List.mem_cons, List.mem_singleton,
      List.not_mem_nil, or_false] at hx
    exact hx

/-- C10, witness: the corrected statement at concrete file contents. -/
theorem map_save_not_atomic_witness :
    (∃ x ∈ saveObservableStates "a" "b", x ≠ "a" ∧ x ≠ "b") ∧
    (∀ x ∈ writeThenReplaceStates "a" "b", x = "a" ∨ x = "b") :=
  map_save_not_atomic "a" "b" (by decide) (by decide)

end FdroidUpdate
